import Mathlib

/-!
Shallow embedding of the output/address-space engine of the ACME
cross-assembler (`src/output.c`).

Machine integers (`intval_t`, C `int`) are modelled as `Int`; byte values
(`char` / `unsigned char`) as `Nat`, reduced mod 256 wherever the C code
performs a narrowing cast.  The power-of-two bitmask
`x & (bufsize - 1)` is modelled as `x % bufsize` (Euclidean remainder),
which agrees with the two's-complement mask for every `Int` when
`bufsize` is a positive power of two.  Diagnostics
(`Throw_warning` / `Throw_error`) are modelled as a list of message
strings appended to the state; `Throw_serious_error` sets a sticky
`fatal` flag (in C it aborts the run, so every operation is a no-op once
`fatal` is set); `Bug_found` sets a `bug` flag.  The indices actually
stored to by `real_output` are logged in `storedIdx` (an observation of
the stores performed during the current pass; reset by
`Output_passinit`).
-/

/-- `enum numtype` restricted to the two values used by this file:
`NUMTYPE_UNDEFINED` and `NUMTYPE_INT`. -/
inductive NumType where
  | undefined
  | int
deriving DecidableEq

/-- `struct segment`: one recorded region `[start, start+length)`.
The doubly-linked ring (whose head is a sentinel) is modelled as a plain
list in ring order, i.e. sorted ascending by `(start, length)`. -/
structure Segment where
  start : Int
  length : Int
deriving DecidableEq

/-- `struct pseudopc`: one offset-assembly context.  The `outer` chain is
modelled by list order (head = innermost / current context). -/
structure PseudoCtx where
  offset : Int
  ntype : NumType
deriving DecidableEq

/-- Segment flags `SEGMENT_FLAG_OVERLAY` / `SEGMENT_FLAG_INVISIBLE`
(bit-independent, modelled as two booleans). -/
structure SegFlags where
  overlay : Bool
  invisible : Bool
deriving DecidableEq

/-- The configuration toggles this file reads from `config`. -/
structure Config where
  segment_warning_is_error : Bool
  wanted_version : Nat

/-- Modelled from the spec: compatibility-version constant from
`global.h` (not part of the given source); only its ordering relative to
`VER_DISABLED_OBSOLETE_STUFF` matters to this file. -/
def VER_SHORTER_SETPC_WARNING : Nat := 1

/-- Modelled from the spec: compatibility-version constant from
`global.h` (not part of the given source); versions at or above it make
closing an unopened pseudopc block a `Bug_found`. -/
def VER_DISABLED_OBSOLETE_STUFF : Nat := 2

/-- Modelled from the spec: the "PC undefined" diagnostic string
(`exception_pc_undefined` lives in `global.c`, not in the given source);
only its identity matters. -/
def exception_pc_undefined : String := "PC undefined"

/-- Message thrown by `border_crossed` (same text for warning and error
severity). -/
def seg_reached_msg : String := "Segment reached another one, overwriting it."

/-- Message thrown by `check_segment` (same text for warning and error
severity). -/
def seg_inside_msg : String := "Segment starts inside another one, overwriting it."

/-- Message thrown by `output_initmem` on a second call. -/
def mem_already_msg : String := "Memory already initialised."

/-- Legacy message thrown by `vcpu_set_pc` (oldest compatibility). -/
def offset_active_switched_msg : String := "Offset assembly still active at end of segment. Switched it off."

/-- Legacy message thrown by `vcpu_set_pc` (middle compatibility). -/
def offset_active_msg : String := "Offset assembly still active at end of segment."

/-- The complete mutable state of `output.c`: `struct output`
(buffer, watermarks, segment bookkeeping), `CPU_state`
(pc value/type/flags and `add_to_pc`), the pseudopc context chain,
the external `pass.undefined_count` counter, and the observation
channels (diagnostics, fatal/bug flags, store log). -/
structure OutState where
  bufsize : Int
  buffer : Int → Nat
  write_idx : Int
  lowest_written : Int
  highest_written : Int
  initvalue_set : Bool
  fill_value : Nat
  seg_start : Option Int
  seg_max : Int
  seg_flags : SegFlags
  segments : List Segment
  xorv : Nat
  write_enabled : Bool
  pc_val : Int
  pc_ntype : NumType
  pc_flags : Int
  pc_addr_refs : Int
  add_to_pc : Int
  pseudopc : List PseudoCtx
  pass_undefined_count : Int
  diags : List String
  fatal : Bool
  bug : Bool
  storedIdx : List Int

/-- `find_segment_max` (pure part): smallest recorded segment start
strictly greater than `new_pc`, minus one; `bufsize - 1` when none
exists.  The sentinel trick of the C loop is exactly "first match in the
sorted ring". -/
def find_segment_max (segs : List Segment) (bufsize new_pc : Int) : Int :=
  match segs.find? (fun t => decide (new_pc < t.start)) with
  | some t => t.start - 1
  | none => bufsize - 1

/-- `find_segment_max` as the state update it performs on
`out->segment.max`. -/
def find_segment_max_st (new_pc : Int) (s : OutState) : OutState :=
  { s with seg_max := find_segment_max s.segments s.bufsize new_pc }

/-- `border_crossed`: fatal when the offset reached `bufsize`; otherwise,
in the first pass only, report the collision (warning or error per
config — same message text) and recompute `segment.max`. -/
def border_crossed (_cfg : Config) (fp : Bool) (current_offset : Int) (s : OutState) : OutState :=
  if s.bufsize ≤ current_offset then { s with fatal := true }
  else if fp then
    find_segment_max_st (current_offset + 1)
      { s with diags := s.diags ++ [seg_reached_msg] }
  else s

/-- The tail of `real_output` after the boundary check: watermark
updates, store `(byte & 0xff) ^ xor` at `write_idx`, advance
`write_idx` and `add_to_pc`. -/
def store_step (byte : Int) (s : OutState) : OutState :=
  let s2 := if s.write_idx < s.lowest_written then { s with lowest_written := s.write_idx } else s
  let s3 := if s2.highest_written < s2.write_idx then { s2 with highest_written := s2.write_idx } else s2
  { s3 with
    buffer := fun j => if j = s3.write_idx then ((byte % 256).toNat ^^^ s3.xorv) else s3.buffer j,
    storedIdx := s3.storedIdx ++ [s3.write_idx],
    write_idx := s3.write_idx + 1,
    add_to_pc := s3.add_to_pc + 1 }

/-- `real_output`: boundary check (possibly fatal), then `store_step`.
Guarded by the sticky `fatal` flag (in C a serious error aborts, so
nothing executes after it). -/
def real_output (cfg : Config) (fp : Bool) (byte : Int) (s : OutState) : OutState :=
  if s.fatal then s
  else
    let s1 := if s.seg_max < s.write_idx then border_crossed cfg fp s.write_idx s else s
    if s1.fatal then s1
    else store_step byte s1

/-- `no_output`: throw "PC undefined" once, switch the function pointer
to `real_output` (modelled by `write_enabled := true`) and retry the
same byte. -/
def no_output (cfg : Config) (fp : Bool) (byte : Int) (s : OutState) : OutState :=
  real_output cfg fp byte
    { s with diags := s.diags ++ [exception_pc_undefined], write_enabled := true }

/-- The `Output_byte` function pointer: dispatches to `real_output` or
`no_output` depending on the writer state. -/
def Output_byte (cfg : Config) (fp : Bool) (byte : Int) (s : OutState) : OutState :=
  if s.fatal then s
  else if s.write_enabled then real_output cfg fp byte s
  else no_output cfg fp byte s

/-- A sequence of `Output_byte` calls. -/
def writeList (cfg : Config) (fp : Bool) : List Int → OutState → OutState
  | [], s => s
  | b :: r, s => writeList cfg fp r (Output_byte cfg fp b s)

/-- `fill_completely`: memset the buffer (indices `0 ≤ j < bufsize`) to
`value` and record it as the fill value (`char` cast: mod 256). -/
def fill_completely (value : Nat) (s : OutState) : OutState :=
  { s with
    buffer := fun j => if 0 ≤ j ∧ j < s.bufsize then value % 256 else s.buffer j,
    fill_value := value % 256 }

/-- `output_initmem`: set the fill byte once per run; a second call
warns and returns 1 without touching anything else.  On success, forces
another pass when none is pending and returns 0. -/
def output_initmem (content : Nat) (s : OutState) : Nat × OutState :=
  if s.initvalue_set then (1, { s with diags := s.diags ++ [mem_already_msg] })
  else
    let s1 := fill_completely content { s with initvalue_set := true }
    let s2 := if s1.pass_undefined_count = 0 then { s1 with pass_undefined_count := 1 } else s1
    (0, s2)

/-- `enum output_format`. -/
inductive Oformat where
  | unspecified
  | apple
  | cbm
  | plain
  | hex
deriving DecidableEq

/-- `Tree_easy_scan` over `file_format_tree`: the case-sensitive name
lookup. -/
def file_format_lookup (name : String) : Option Oformat :=
  if name = "apple" then some .apple
  else if name = "cbm" then some .cbm
  else if name = "plain" then some .plain
  else if name = "hex" then some .hex
  else none

/-- `outputfile_set_format`: look the name up; on success store the
format (unconditionally — there is no "already chosen" check) and
return 0, else return 1 leaving the format unchanged. -/
def outputfile_set_format (name : String) (fmt : Oformat) : Nat × Oformat :=
  match file_format_lookup name with
  | none => (1, fmt)
  | some f => (0, f)

/-- `outputfile_prefer_cbm_format`: choose CBM only when still
unspecified (returns 1 exactly when it chose). -/
def outputfile_prefer_cbm_format (fmt : Oformat) : Nat × Oformat :=
  if fmt ≠ Oformat.unspecified then (0, fmt) else (1, Oformat.cbm)

/-- `Output_passinit`: invalidate watermarks, disable output (function
pointer set to `no_output`), reset cursor/segment/xor and the vcpu and
pseudopc state.  The ring list of segments is deliberately NOT cleared
(see the commented-out block in the C source).  The per-pass store log
is reset. -/
def Output_passinit (s : OutState) : OutState :=
  { s with
    lowest_written := s.bufsize - 1,
    highest_written := 0,
    write_enabled := false,
    write_idx := 0,
    seg_start := none,
    seg_max := s.bufsize - 1,
    seg_flags := ⟨false, false⟩,
    xorv := 0,
    pc_ntype := .undefined,
    pc_flags := 0,
    pc_val := 0,
    add_to_pc := 0,
    pseudopc := [],
    storedIdx := [] }

/-- `link_segment`: insert a record into the ring, keeping it sorted
ascending by `(start, length)` (the C loop advances while the tested
element is strictly smaller in that lexicographic order). -/
def link_segment : List Segment → Int → Int → List Segment
  | [], st, len => [⟨st, len⟩]
  | t :: rest, st, len =>
    if t.start < st ∨ (t.start = st ∧ t.length < len) then t :: link_segment rest st len
    else ⟨st, len⟩ :: t :: rest

/-- `Output_end_segment`: in the first pass, link the current segment
(if any, visible, and non-empty) into the ring. -/
def Output_end_segment (fp : Bool) (s : OutState) : OutState :=
  if fp = false then s
  else
    match s.seg_start with
    | none => s
    | some st =>
      if s.seg_flags.invisible then s
      else if s.write_idx - st = 0 then s
      else { s with segments := link_segment s.segments st (s.write_idx - st) }

/-- `check_segment` scan loop: walk the sorted ring while
`start ≤ new_pc`; report (and stop) at the first segment containing
`new_pc`. -/
def check_segment_hit : List Segment → Int → Bool
  | [], _ => false
  | t :: rest, new_pc =>
    if t.start ≤ new_pc then
      if new_pc < t.start + t.length then true else check_segment_hit rest new_pc
    else false

/-- `check_segment`: report the first detected overlap (warning or error
per config — same message text). -/
def check_segment (_cfg : Config) (new_pc : Int) (s : OutState) : OutState :=
  if check_segment_hit s.segments new_pc then { s with diags := s.diags ++ [seg_inside_msg] } else s

/-- `Output_start_segment`: finalize the previous segment, move the
cursor by `address_change` (mask = mod bufsize), open a new segment,
enable writing; in the first pass check overlap (unless overlay) and
recompute `segment.max`. -/
def Output_start_segment (cfg : Config) (fp : Bool) (address_change : Int) (segment_flags : SegFlags) (s : OutState) : OutState :=
  let s0 := Output_end_segment fp s
  let widx := (s0.write_idx + address_change) % s0.bufsize
  let s1 := { s0 with write_idx := widx, seg_start := some widx, seg_flags := segment_flags, write_enabled := true }
  if fp then
    let s2 := if segment_flags.overlay then s1 else check_segment cfg widx s1
    { s2 with seg_max := find_segment_max s2.segments s2.bufsize widx }
  else s1

/-- `pseudopc_start`: push a context capturing `offset = new_pc - pc`
and the outer pc's number type; set the pc to `new_pc`, marked
defined. -/
def pseudopc_start (new_pc : Int) (s : OutState) : OutState :=
  { s with
    pseudopc := ⟨new_pc - s.pc_val, s.pc_ntype⟩ :: s.pseudopc,
    pc_val := new_pc,
    pc_ntype := .int }

/-- `pseudopc_end`: with no active context this is `Bug_found` for
current versions and a silent no-op for legacy compatibility levels;
otherwise restore `pc = (pc - offset) mod bufsize` and the outer number
type, and pop. -/
def pseudopc_end (cfg : Config) (s : OutState) : OutState :=
  match s.pseudopc with
  | [] =>
    if VER_DISABLED_OBSOLETE_STUFF ≤ cfg.wanted_version then { s with bug := true } else s
  | c :: rest =>
    { s with
      pc_val := (s.pc_val - c.offset) % s.bufsize,
      pc_ntype := c.ntype,
      pseudopc := rest }

/-- `n` successive `pseudopc_end` calls. -/
def pseudopc_end_iter (cfg : Config) : Nat → OutState → OutState
  | 0, s => s
  | n + 1, s => pseudopc_end_iter cfg n (pseudopc_end cfg s)

/-- `pseudopc_end_all`: unwind the whole chain (each `pseudopc_end` on a
non-empty chain pops exactly one context, so iterating the chain length
empties it, exactly like the C while loop). -/
def pseudopc_end_all (cfg : Config) (s : OutState) : OutState :=
  pseudopc_end_iter cfg s.pseudopc.length s

/-- A sequence of `pseudopc_start` calls (first list element entered
first). -/
def pseudopc_start_list (l : List Int) (s : OutState) : OutState :=
  l.foldl (fun st a => pseudopc_start a st) s

/-- `vcpu_set_pc`: legacy handling of a still-active pseudopc chain,
then update the pc (defined, counts as address) and start a new segment
with the pc delta. -/
def vcpu_set_pc (cfg : Config) (fp : Bool) (new_pc : Int) (segment_flags : SegFlags) (s : OutState) : OutState :=
  let s0 :=
    if s.pseudopc ≠ [] then
      if cfg.wanted_version < VER_SHORTER_SETPC_WARNING then
        pseudopc_end_all cfg { s with diags := s.diags ++ [offset_active_switched_msg] }
      else if cfg.wanted_version < VER_DISABLED_OBSOLETE_STUFF then
        pseudopc_end_all cfg { s with diags := s.diags ++ [offset_active_msg] }
      else s
    else s
  let pc_change := new_pc - s0.pc_val
  let s1 := { s0 with pc_val := new_pc, pc_ntype := .int, pc_addr_refs := 1 }
  Output_start_segment cfg fp pc_change segment_flags s1

/-- `%0*x`-style formatting: lowercase hex, zero-padded to `w` digits
(`Nat.toDigits` produces lowercase digits, as `fprintf %x` does). -/
def hexDigits (w : Nat) (n : Nat) : String :=
  ⟨List.replicate (w - (Nat.toDigits 16 n).length) '0' ++ Nat.toDigits 16 n⟩

/-- The checksum accumulator of `outputHexChunk`: size plus address
high/low bytes plus the (unsigned-char cast) data bytes; the final
`~checksum + 1` two's-complement step followed by `& 0xff` equals
negation mod 256. -/
def hexChecksum (buf : Int → Nat) (start : Int) (size : Nat) : Int :=
  let base : Int := (size : Int) + (start % 65536) / 256 + start % 256
  let withData : Int := base + ((List.range size).map (fun i => ((buf (start + (i : Int))) % 256 : Nat))).sum
  (0 - withData) % 256

/-- `outputHexChunk`: one Intel HEX data record
`:LLAAAA00<data>CC\n` (`fprintf` uses lowercase `%02x` / `%04x`; the
`%x` conversion treats the `int` address as a 32-bit unsigned value). -/
def outputHexChunk (buf : Int → Nat) (start : Int) (size : Nat) : String :=
  ":" ++ hexDigits 2 size ++ hexDigits 4 ((start % 4294967296).toNat) ++ "00"
    ++ String.join ((List.range size).map (fun i => hexDigits 2 ((buf (start + (i : Int))) % 256)))
    ++ hexDigits 2 (hexChecksum buf start size).toNat ++ "\n"

/-- The loop of `outputHex`, with the remaining iteration count
`amount - i` made explicit as structural fuel.  Instead of the printed
text, it returns the list of `(chunkStart, size)` arguments passed to
`outputHexChunk`, in order (sizes after the `unsigned char` narrowing
of the call). -/
def hexFuel (buf : Int → Nat) (fill : Nat) : Nat → Int → Int → Int → List (Int × Int) → List (Int × Int)
  | 0, i, chunkStart, _emptyCount, acc =>
    let chunkSize := (i - chunkStart) % 256
    if chunkSize ≠ 0 then acc ++ [(chunkStart, chunkSize)] else acc
  | fuel + 1, i, chunkStart, emptyCount, acc =>
    if fill ≠ 0 ∧ buf i = fill then
      hexFuel buf fill fuel (i + 1) chunkStart (emptyCount + 1) acc
    else
      let chunkSize0 : Int := i - chunkStart
      let chunkSize : Int := if 32 < emptyCount then chunkSize0 - emptyCount else chunkSize0
      let emptyCount1 : Int := if 32 < emptyCount then emptyCount else 0
      if emptyCount1 ≠ 0 ∨ 64 ≤ chunkSize then
        let bytesToWrite : Int := if 64 < chunkSize then 64 else chunkSize
        hexFuel buf fill fuel (i + 1) (i - (chunkSize - bytesToWrite)) 0
          (acc ++ [(chunkStart, bytesToWrite % 256)])
      else
        hexFuel buf fill fuel (i + 1) chunkStart 0 acc

/-- `outputHex` (chunking part): iterate the loop from `i = start` while
`i < amount` (so `(amount - start).toNat` iterations), then emit the
final partial chunk if its `unsigned char` size is non-zero. -/
def outputHexChunks (buf : Int → Nat) (fill : Nat) (start amount : Int) : List (Int × Int) :=
  hexFuel buf fill (amount - start).toNat start start 0 []

/-- A buffer index `j` is covered by (written into) one of the emitted
data records. -/
def covers (cs : List (Int × Int)) (j : Int) : Prop :=
  ∃ p ∈ cs, p.1 ≤ j ∧ j < p.1 + p.2

/-- Watermark invariant: every index stored to (this pass) lies between
the low and high watermark. -/
def WMInv (s : OutState) : Prop :=
  ∀ i ∈ s.storedIdx, s.lowest_written ≤ i ∧ i ≤ s.highest_written

/-- Number of "PC undefined" diagnostics in a message list. -/
def countPcUndef (l : List String) : Nat :=
  l.countP (fun m => m = exception_pc_undefined)

/-- A concrete configuration for witnesses (current version, overlap
collisions as warnings). -/
def testConfig : Config :=
  { segment_warning_is_error := false, wanted_version := 10 }

/-- A concrete small state for witnesses: freshly initialised output
context with an 8-byte buffer. -/
def testState : OutState :=
  { bufsize := 8
    buffer := fun _ => 0
    write_idx := 0
    lowest_written := 7
    highest_written := 0
    initvalue_set := false
    fill_value := 0
    seg_start := none
    seg_max := 7
    seg_flags := ⟨false, false⟩
    segments := []
    xorv := 0
    write_enabled := false
    pc_val := 0
    pc_ntype := .undefined
    pc_flags := 0
    pc_addr_refs := 0
    add_to_pc := 0
    pseudopc := []
    pass_undefined_count := 0
    diags := []
    fatal := false
    bug := false
    storedIdx := [] }

/-- Concrete buffer holding bytes 0x01, 0x02 at indices 0, 1. -/
def testBuf12 : Int → Nat :=
  fun j => if j = 0 then 1 else if j = 1 then 2 else 0

/-- C6: `pseudopc_end` with no active context is a `Bug_found` abort for
current compatibility versions, and a complete no-op (pc and context
chain untouched) for legacy versions below
`VER_DISABLED_OBSOLETE_STUFF`. -/
theorem c6_pseudopc_end_unopened (cfg : Config) (s : OutState)
    (h : s.pseudopc = []) :
    (VER_DISABLED_OBSOLETE_STUFF ≤ cfg.wanted_version → (pseudopc_end cfg s).bug = true) ∧
      (cfg.wanted_version < VER_DISABLED_OBSOLETE_STUFF → pseudopc_end cfg s = s) := by
  constructor
  · intro hv
    simp [pseudopc_end, h, hv]
  · intro hv
    simp [pseudopc_end, h, Nat.not_le.mpr hv]

/-- C6 witness: concrete instantiation at the empty chain with a current
version. -/
theorem c6_witness :
    testState.pseudopc = [] ∧
      ((VER_DISABLED_OBSOLETE_STUFF ≤ testConfig.wanted_version →
          (pseudopc_end testConfig testState).bug = true) ∧
        (testConfig.wanted_version < VER_DISABLED_OBSOLETE_STUFF →
          pseudopc_end testConfig testState = testState)) :=
  ⟨rfl, c6_pseudopc_end_unopened testConfig testState rfl⟩

/-- C7 counterexample: the record for address 0x0000, size 2, data
[0x01, 0x02] is NOT the text `:020000000102FB` — `fprintf` `%02x`
produces lowercase hex digits and the record is newline-terminated. -/
theorem c7_counterexample :
    outputHexChunk testBuf12 0 2 ≠ ":020000000102FB" ∧
      outputHexChunk testBuf12 0 2 ≠ ":020000000102FB\n" := by
  constructor <;> decide

/-- C7 (amended): for the record with address 0x0000, size 2, data
[0x01, 0x02], the emitted checksum byte is 0xFB and the emitted record
is exactly `:020000000102fb` (lowercase hex) followed by a newline, and
the general rule (LL + AAAA_high + AAAA_low + sum(data) + CC) mod 256
= 0 holds for it. -/
theorem c7_hex_chunk_checksum :
    outputHexChunk testBuf12 0 2 = ":020000000102fb\n" ∧
      hexChecksum testBuf12 0 2 = 0xfb ∧
      (2 + 0 + 0 + (1 + 2) + hexChecksum testBuf12 0 2) % 256 = 0 := by
  refine ⟨by decide, by decide, by decide⟩

/-- C8: from a state where the fill value is not yet set, a first
`output_initmem v1` succeeds (returns 0) and sets the fill value to
`v1`; a second call with any `v2` reports the "Memory already
initialised." warning, returns 1, and changes neither the fill value
nor the buffer contents. -/
theorem c8_initmem_twice (v1 v2 : Nat) (s : OutState)
    (h : s.initvalue_set = false) (h1 : v1 < 256) :
    (output_initmem v1 s).1 = 0 ∧
      (output_initmem v2 (output_initmem v1 s).2).1 = 1 ∧
      (output_initmem v1 s).2.fill_value = v1 ∧
      (output_initmem v2 (output_initmem v1 s).2).2.fill_value = v1 ∧
      (output_initmem v2 (output_initmem v1 s).2).2.buffer = (output_initmem v1 s).2.buffer ∧
      (output_initmem v2 (output_initmem v1 s).2).2.diags =
        (output_initmem v1 s).2.diags ++ [mem_already_msg] := by
  have hmod : v1 % 256 = v1 := Nat.mod_eq_of_lt h1
  by_cases hp : s.pass_undefined_count = 0 <;>
    simp [output_initmem, fill_completely, h, hp, hmod]

/-- C8 witness: concrete double call with v1 = 5, v2 = 9. -/
theorem c8_witness :
    testState.initvalue_set = false ∧ 5 < 256 ∧
      ((output_initmem 5 testState).1 = 0 ∧
        (output_initmem 9 (output_initmem 5 testState).2).1 = 1 ∧
        (output_initmem 5 testState).2.fill_value = 5 ∧
        (output_initmem 9 (output_initmem 5 testState).2).2.fill_value = 5 ∧
        (output_initmem 9 (output_initmem 5 testState).2).2.buffer =
          (output_initmem 5 testState).2.buffer ∧
        (output_initmem 9 (output_initmem 5 testState).2).2.diags =
          (output_initmem 5 testState).2.diags ++ [mem_already_msg]) :=
  ⟨rfl, by decide, c8_initmem_twice 5 9 testState rfl (by decide)⟩

/-- C9 counterexample: after selecting "plain", a second selection of
"cbm" is NOT a no-op — it succeeds (returns 0) and replaces the format
with CBM, so the first selection does not win and no warning is
reported. -/
theorem c9_counterexample :
    (outputfile_set_format "plain" Oformat.unspecified).2 = Oformat.plain ∧
      outputfile_set_format "cbm" (outputfile_set_format "plain" Oformat.unspecified).2 =
        (0, Oformat.cbm) ∧
      Oformat.cbm ≠ Oformat.plain := by
  refine ⟨by decide, by decide, by decide⟩

/-- C9 (amended): `outputfile_set_format` contains no "already chosen"
check: every call with a known name succeeds (returns 0) and stores
that format, overwriting any earlier selection without a warning (last
selection wins); only the implicit prefer-CBM auto-selection is
conditional, changing the format exactly when it is still
unspecified. -/
theorem c9_set_format_overwrites (name : String) (fmt f : Oformat)
    (h : file_format_lookup name = some f) :
    outputfile_set_format name fmt = (0, f) ∧
      outputfile_prefer_cbm_format fmt =
        (if fmt = Oformat.unspecified then (1, Oformat.cbm) else (0, fmt)) := by
  constructor
  · simp [outputfile_set_format, h]
  · by_cases hu : fmt = Oformat.unspecified <;> simp [outputfile_prefer_cbm_format, hu]

/-- C9 witness: selecting "cbm" while the format is already Plain
overwrites it. -/
theorem c9_witness :
    file_format_lookup "cbm" = some Oformat.cbm ∧
      (outputfile_set_format "cbm" Oformat.plain = (0, Oformat.cbm) ∧
        outputfile_prefer_cbm_format Oformat.plain =
          (if Oformat.plain = Oformat.unspecified then (1, Oformat.cbm) else (0, Oformat.plain))) :=
  ⟨by decide, c9_set_format_overwrites "cbm" Oformat.plain Oformat.cbm (by decide)⟩

/-- Helper for C4: `find_segment_max` on a ring sorted by start returns
the least recorded start strictly greater than the address, minus one,
or `bufsize - 1` when no recorded start exceeds it. -/
theorem find_segment_max_spec (segs : List Segment) (B A : Int)
    (hs : segs.Pairwise (fun a b => a.start ≤ b.start)) :
    (∃ t ∈ segs, A < t.start ∧ find_segment_max segs B A = t.start - 1 ∧
        ∀ u ∈ segs, A < u.start → t.start ≤ u.start) ∨
      ((∀ t ∈ segs, t.start ≤ A) ∧ find_segment_max segs B A = B - 1) := by
  induction segs with
  | nil =>
    right
    exact ⟨by simp, by simp [find_segment_max]⟩
  | cons t rest ih =>
    rcases List.pairwise_cons.mp hs with ⟨hhead, htail⟩
    by_cases hA : A < t.start
    · left
      refine ⟨t, List.mem_cons_self _ _, hA, ?_, ?_⟩
      · simp [find_segment_max, List.find?_cons_of_pos, hA]
      · intro u hu hAu
        rcases List.mem_cons.mp hu with h | h
        · exact h ▸ le_refl _
        · exact hhead u h
    · have hfind : find_segment_max (t :: rest) B A = find_segment_max rest B A := by
        simp [find_segment_max, List.find?_cons_of_neg, hA]
      rcases ih htail with ⟨u, hu, hAu, heq, hmin⟩ | ⟨hall, heq⟩
      · left
        refine ⟨u, List.mem_cons_of_mem _ hu, hAu, hfind ▸ heq, ?_⟩
        intro v hv hAv
        rcases List.mem_cons.mp hv with h | h
        · exact absurd (h ▸ hAv) hA
        · exact hmin v h hAv
      · right
        exact ⟨fun v hv => by
          rcases List.mem_cons.mp hv with h | h
          · exact h ▸ (Int.not_lt.mp hA)
          · exact hall v h, hfind ▸ heq⟩

/-- C4: on a sorted segment ring, `find_segment_max A` sets the live
segment upper bound `segment.max` to `S - 1` where `S` is the smallest
recorded start strictly greater than `A`, and to `capacity - 1` when no
recorded start exceeds `A`. -/
theorem c4_find_segment_max_correct (s : OutState) (A : Int)
    (hs : s.segments.Pairwise (fun a b => a.start ≤ b.start)) :
    (∃ t ∈ s.segments, A < t.start ∧
        (find_segment_max_st A s).seg_max = t.start - 1 ∧
        ∀ u ∈ s.segments, A < u.start → t.start ≤ u.start) ∨
      ((∀ t ∈ s.segments, t.start ≤ A) ∧
        (find_segment_max_st A s).seg_max = s.bufsize - 1) := by
  have h := find_segment_max_spec s.segments s.bufsize A hs
  simpa [find_segment_max_st] using h

/-- C4 witness: ring `[{start := 8192, length := 16}, {start := 12288,
length := 5}]`, address 8197 (inside the first segment): the bound
becomes 12287 = 12288 - 1. -/
theorem c4_witness :
    ({ testState with segments := [⟨8192, 16⟩, ⟨12288, 5⟩] } : OutState).segments.Pairwise
        (fun a b => a.start ≤ b.start) ∧
      ((∃ t ∈ ({ testState with segments := [⟨8192, 16⟩, ⟨12288, 5⟩] } : OutState).segments,
          (8197 : Int) < t.start ∧
          (find_segment_max_st 8197 { testState with segments := [⟨8192, 16⟩, ⟨12288, 5⟩] }).seg_max = t.start - 1 ∧
          ∀ u ∈ ({ testState with segments := [⟨8192, 16⟩, ⟨12288, 5⟩] } : OutState).segments,
            (8197 : Int) < u.start → t.start ≤ u.start) ∨
        ((∀ t ∈ ({ testState with segments := [⟨8192, 16⟩, ⟨12288, 5⟩] } : OutState).segments,
            t.start ≤ (8197 : Int)) ∧
          (find_segment_max_st 8197 { testState with segments := [⟨8192, 16⟩, ⟨12288, 5⟩] }).seg_max =
            ({ testState with segments := [⟨8192, 16⟩, ⟨12288, 5⟩] } : OutState).bufsize - 1)) :=
  ⟨by decide, c4_find_segment_max_correct _ 8197 (by decide)⟩

/-- Helper: iterating `pseudopc_end` one more time is one more outer
application. -/
theorem pseudopc_end_iter_succ (cfg : Config) (n : Nat) (s : OutState) :
    pseudopc_end_iter cfg (n + 1) s = pseudopc_end cfg (pseudopc_end_iter cfg n s) := by
  induction n generalizing s with
  | zero => rfl
  | succ n ih =>
    calc pseudopc_end_iter cfg (n + 2) s
        = pseudopc_end_iter cfg (n + 1) (pseudopc_end cfg s) := rfl
      _ = pseudopc_end cfg (pseudopc_end_iter cfg n (pseudopc_end cfg s)) := ih _
      _ = pseudopc_end cfg (pseudopc_end_iter cfg (n + 1) s) := rfl

/-- Helper: subtracting through an already-reduced value agrees mod B. -/
theorem emod_sub_cancel_aux (a p B : Int) : (a % B - (a - p)) % B = p % B := by
  rw [Int.sub_emod, Int.emod_emod_of_dvd _ dvd_rfl, ← Int.sub_emod]
  congr 1
  ring

/-- Helper for C5: entering `a :: l` pseudopc contexts and exiting all
of them restores the chain and the pc number type exactly, and the pc
value up to reduction mod bufsize. -/
theorem pseudopc_roundtrip_aux (cfg : Config) (l : List Int) : ∀ (a : Int) (s : OutState),
    (pseudopc_end_iter cfg (l.length + 1) (pseudopc_start_list (a :: l) s)).pc_val =
        s.pc_val % s.bufsize ∧
      (pseudopc_end_iter cfg (l.length + 1) (pseudopc_start_list (a :: l) s)).pc_ntype =
        s.pc_ntype ∧
      (pseudopc_end_iter cfg (l.length + 1) (pseudopc_start_list (a :: l) s)).pseudopc =
        s.pseudopc ∧
      (pseudopc_end_iter cfg (l.length + 1) (pseudopc_start_list (a :: l) s)).bufsize =
        s.bufsize := by
  induction l with
  | nil =>
    intro a s
    simp [pseudopc_start_list, pseudopc_end_iter, pseudopc_start, pseudopc_end]
  | cons b l ih =>
    intro a s
    rw [show pseudopc_start_list (a :: b :: l) s =
        pseudopc_start_list (b :: l) (pseudopc_start a s) from rfl,
      show (b :: l).length + 1 = (l.length + 1) + 1 from rfl,
      pseudopc_end_iter_succ]
    obtain ⟨hval, hty, hps, hB⟩ := ih b (pseudopc_start a s)
    set m := pseudopc_end_iter cfg (l.length + 1) (pseudopc_start_list (b :: l) (pseudopc_start a s)) with hm
    have hps' : m.pseudopc = ⟨a - s.pc_val, s.pc_ntype⟩ :: s.pseudopc := by
      rw [hps]; rfl
    have hval' : m.pc_val = a % s.bufsize := by
      rw [hval]; rfl
    have hB' : m.bufsize = s.bufsize := by
      rw [hB]; rfl
    simp [pseudopc_end, hps', hval', hB']
    exact emod_sub_cancel_aux a s.pc_val s.bufsize

/-- C5: for any nesting depth (list of `new_pc` values, each entered in
turn) and any starting state whose pc is a proper buffer address,
entering with `pseudopc_start` and exiting every context with
`pseudopc_end` in strict LIFO order restores the program counter value,
its definedness (number type), and the context chain to their pre-entry
state. -/
theorem c5_pseudopc_roundtrip (cfg : Config) (l : List Int) (s : OutState)
    (h0 : 0 ≤ s.pc_val) (hB : s.pc_val < s.bufsize) :
    (pseudopc_end_iter cfg l.length (pseudopc_start_list l s)).pc_val = s.pc_val ∧
      (pseudopc_end_iter cfg l.length (pseudopc_start_list l s)).pc_ntype = s.pc_ntype ∧
      (pseudopc_end_iter cfg l.length (pseudopc_start_list l s)).pseudopc = s.pseudopc := by
  cases l with
  | nil => exact ⟨rfl, rfl, rfl⟩
  | cons a l =>
    obtain ⟨hval, hty, hps, _⟩ := pseudopc_roundtrip_aux cfg l a s
    exact ⟨by rw [show (a :: l).length = l.length + 1 from rfl, hval,
      Int.emod_eq_of_lt h0 hB], hty, hps⟩

/-- C5 witness: two nested contexts entered at 3 and 5 from pc 0 in an
8-byte space, both exited. -/
theorem c5_witness :
    (0 : Int) ≤ testState.pc_val ∧ testState.pc_val < testState.bufsize ∧
      ((pseudopc_end_iter testConfig ([3, 5] : List Int).length
            (pseudopc_start_list [3, 5] testState)).pc_val = testState.pc_val ∧
        (pseudopc_end_iter testConfig ([3, 5] : List Int).length
            (pseudopc_start_list [3, 5] testState)).pc_ntype = testState.pc_ntype ∧
        (pseudopc_end_iter testConfig ([3, 5] : List Int).length
            (pseudopc_start_list [3, 5] testState)).pseudopc = testState.pseudopc) :=
  ⟨by decide, by decide, c5_pseudopc_roundtrip testConfig [3, 5] testState (by decide) (by decide)⟩

/-- Helper: appending a non-"PC undefined" message leaves the count
unchanged. -/
theorem countPc_append_other (l : List String) (m : String) (h : ¬ m = exception_pc_undefined) :
    countPcUndef (l ++ [m]) = countPcUndef l := by
  simp [countPcUndef, List.countP_append, List.countP_cons, h]

/-- Helper: appending the "PC undefined" message bumps the count by
one. -/
theorem countPc_append_pc (l : List String) :
    countPcUndef (l ++ [exception_pc_undefined]) = countPcUndef l + 1 := by
  simp [countPcUndef, List.countP_append, List.countP_cons]

/-- Helper: what `store_step` does and does not touch. -/
theorem store_step_frame (b : Int) (s : OutState) :
    (store_step b s).write_enabled = s.write_enabled ∧
      (store_step b s).diags = s.diags ∧
      (store_step b s).fatal = s.fatal ∧
      (store_step b s).write_idx = s.write_idx + 1 ∧
      (store_step b s).storedIdx = s.storedIdx ++ [s.write_idx] ∧
      (store_step b s).buffer s.write_idx = (b % 256).toNat ^^^ s.xorv ∧
      (store_step b s).seg_max = s.seg_max ∧
      (store_step b s).bufsize = s.bufsize ∧
      (store_step b s).xorv = s.xorv ∧
      (store_step b s).segments = s.segments := by
  rw [store_step]
  split_ifs <;> simp

/-- Helper: `border_crossed` never touches the writer state, the
"PC undefined" count, the cursor, the watermarks or the store log. -/
theorem border_crossed_frame (cfg : Config) (fp : Bool) (o : Int) (s : OutState) :
    (border_crossed cfg fp o s).write_enabled = s.write_enabled ∧
      countPcUndef (border_crossed cfg fp o s).diags = countPcUndef s.diags ∧
      (border_crossed cfg fp o s).write_idx = s.write_idx ∧
      (border_crossed cfg fp o s).lowest_written = s.lowest_written ∧
      (border_crossed cfg fp o s).highest_written = s.highest_written ∧
      (border_crossed cfg fp o s).storedIdx = s.storedIdx ∧
      (border_crossed cfg fp o s).xorv = s.xorv := by
  rw [border_crossed]
  split_ifs <;>
    simp [find_segment_max_st, countPc_append_other, seg_reached_msg, exception_pc_undefined]

/-- Helper: `real_output` never changes the writer state nor adds a
"PC undefined" diagnostic. -/
theorem real_output_enabled_frame (cfg : Config) (fp : Bool) (b : Int) (s : OutState) :
    (real_output cfg fp b s).write_enabled = s.write_enabled ∧
      countPcUndef (real_output cfg fp b s).diags = countPcUndef s.diags := by
  rw [real_output]
  by_cases h1 : s.fatal = true
  · simp [h1]
  · simp only [h1, if_false, Bool.false_eq_true]
    by_cases h2 : s.seg_max < s.write_idx
    · simp only [h2, if_true]
      set t := border_crossed cfg fp s.write_idx s with ht
      obtain ⟨he, hc, _⟩ := border_crossed_frame cfg fp s.write_idx s
      by_cases h3 : t.fatal = true
      · simp only [← ht, h3, if_true]
        exact ⟨he, hc⟩
      · simp only [← ht, h3, if_false, Bool.false_eq_true]
        obtain ⟨se, sd, _⟩ := store_step_frame b t
        refine ⟨se.trans he, ?_⟩
        rw [sd]
        exact hc
    · simp only [h2, if_false]
      by_cases h3 : s.fatal = true
      · exact absurd h3 h1
      · simp only [h3, if_false, Bool.false_eq_true]
        obtain ⟨se, sd, _⟩ := store_step_frame b s
        exact ⟨se, by rw [sd]⟩

/-- Helper: once the writer is enabled, `Output_byte` keeps it enabled
and adds no "PC undefined" diagnostic. -/
theorem output_byte_enabled_frame (cfg : Config) (fp : Bool) (b : Int) (s : OutState)
    (h : s.write_enabled = true) :
    (Output_byte cfg fp b s).write_enabled = true ∧
      countPcUndef (Output_byte cfg fp b s).diags = countPcUndef s.diags := by
  rw [Output_byte]
  by_cases h1 : s.fatal = true
  · simp [h1, h]
  · simp only [h1, if_false, Bool.false_eq_true, h, if_true]
    obtain ⟨he, hc⟩ := real_output_enabled_frame cfg fp b s
    exact ⟨he.trans h, hc⟩

/-- Helper: a whole sequence of writes on an enabled writer keeps it
enabled and adds no "PC undefined" diagnostic. -/
theorem writeList_enabled_frame (cfg : Config) (fp : Bool) (l : List Int) :
    ∀ s : OutState, s.write_enabled = true →
      (writeList cfg fp l s).write_enabled = true ∧
        countPcUndef (writeList cfg fp l s).diags = countPcUndef s.diags := by
  induction l with
  | nil => exact fun s h => ⟨h, rfl⟩
  | cons b r ih =>
    intro s h
    obtain ⟨he, hc⟩ := output_byte_enabled_frame cfg fp b s h
    obtain ⟨he', hc'⟩ := ih _ he
    exact ⟨he', by rw [writeList, hc', hc]⟩

/-- C1: a byte emission while writing is disabled reports the
"PC undefined" diagnostic exactly once, switches the writer to the
enabled state, and stores that same byte (`(byte & 0xff) ^ xor`) at the
current write index; any sequence of further writes in the same disable
period adds no additional "PC undefined" diagnostic. -/
theorem c1_write_disabled_reports_once (cfg : Config) (fp : Bool) (b : Int) (s : OutState)
    (hw : s.write_enabled = false) (hf : s.fatal = false) (hm : s.write_idx ≤ s.seg_max) :
    countPcUndef (Output_byte cfg fp b s).diags = countPcUndef s.diags + 1 ∧
      (Output_byte cfg fp b s).write_enabled = true ∧
      (Output_byte cfg fp b s).buffer s.write_idx = (b % 256).toNat ^^^ s.xorv ∧
      (Output_byte cfg fp b s).storedIdx = s.storedIdx ++ [s.write_idx] ∧
      ∀ l, countPcUndef (writeList cfg fp l (Output_byte cfg fp b s)).diags =
        countPcUndef (Output_byte cfg fp b s).diags := by
  have heq : Output_byte cfg fp b s = store_step b
      { s with diags := s.diags ++ [exception_pc_undefined], write_enabled := true } := by
    simp only [Output_byte, no_output, real_output]
    simp [hf, hw, not_lt.mpr hm]
  obtain ⟨se, sd, _, _, sst, sbuf, _⟩ :=
    store_step_frame b { s with diags := s.diags ++ [exception_pc_undefined], write_enabled := true }
  refine ⟨?_, ?_, ?_, ?_, ?_⟩
  · rw [heq, sd]
    exact countPc_append_pc s.diags
  · rw [heq, se]
  · rw [heq]
    exact sbuf
  · rw [heq]
    exact sst
  · intro l
    exact (writeList_enabled_frame cfg fp l _ (by rw [heq, se])).2

/-- C1 witness: writing byte 0x41 into the freshly pass-initialised
8-byte state (writer disabled, cursor 0). -/
theorem c1_witness :
    testState.write_enabled = false ∧ testState.fatal = false ∧
      testState.write_idx ≤ testState.seg_max ∧
      (countPcUndef (Output_byte testConfig true 65 testState).diags =
          countPcUndef testState.diags + 1 ∧
        (Output_byte testConfig true 65 testState).write_enabled = true ∧
        (Output_byte testConfig true 65 testState).buffer testState.write_idx =
          ((65 : Int) % 256).toNat ^^^ testState.xorv ∧
        (Output_byte testConfig true 65 testState).storedIdx =
          testState.storedIdx ++ [testState.write_idx] ∧
        ∀ l, countPcUndef (writeList testConfig true l (Output_byte testConfig true 65 testState)).diags =
          countPcUndef (Output_byte testConfig true 65 testState).diags) :=
  ⟨rfl, rfl, by decide, c1_write_disabled_reports_once testConfig true 65 testState rfl rfl (by decide)⟩

/-- Helper: `store_step` preserves the watermark invariant (the one
freshly stored index is pulled into the `[low, high]` range by the two
watermark updates). -/
theorem store_step_wminv (b : Int) (s : OutState) (h : WMInv s) : WMInv (store_step b s) := by
  rw [WMInv]
  by_cases h1 : s.write_idx < s.lowest_written <;>
    by_cases h2 : s.highest_written < s.write_idx <;>
      simp only [store_step, h1, h2, if_true, if_false] <;>
        intro i hi <;>
          simp only [List.mem_append, List.mem_singleton] at hi <;>
            (rcases hi with hio | rfl
             · obtain ⟨hl, hh⟩ := h i hio
               exact ⟨by omega, by omega⟩
             · exact ⟨by omega, by omega⟩)

/-- Helper: `real_output` preserves the watermark invariant. -/
theorem real_output_wminv (cfg : Config) (fp : Bool) (b : Int) (s : OutState)
    (h : WMInv s) : WMInv (real_output cfg fp b s) := by
  rw [real_output]
  by_cases h1 : s.fatal = true
  · simpa [h1] using h
  · simp only [h1, if_false, Bool.false_eq_true]
    by_cases h2 : s.seg_max < s.write_idx
    · simp only [h2, if_true]
      set t := border_crossed cfg fp s.write_idx s with ht
      obtain ⟨_, _, _, tl, th, tsi, _⟩ := border_crossed_frame cfg fp s.write_idx s
      have hWt : WMInv t := by
        rw [WMInv, tsi, tl, th]
        exact h
      by_cases h3 : t.fatal = true
      · simpa [← ht, h3] using hWt
      · simp only [← ht, h3, if_false, Bool.false_eq_true]
        exact store_step_wminv b t hWt
    · simp only [h2, if_false]
      by_cases h3 : s.fatal = true
      · exact absurd h3 h1
      · simp only [h3, if_false, Bool.false_eq_true]
        exact store_step_wminv b s h

/-- Helper: `Output_byte` preserves the watermark invariant. -/
theorem output_byte_wminv (cfg : Config) (fp : Bool) (b : Int) (s : OutState)
    (h : WMInv s) : WMInv (Output_byte cfg fp b s) := by
  rw [Output_byte]
  by_cases h1 : s.fatal = true
  · simpa [h1] using h
  · simp only [h1, if_false, Bool.false_eq_true]
    by_cases h2 : s.write_enabled = true
    · simp only [h2, if_true]
      exact real_output_wminv cfg fp b s h
    · simp only [h2, if_false, Bool.false_eq_true]
      rw [no_output]
      exact real_output_wminv cfg fp b _ h

/-- Helper: any write sequence preserves the watermark invariant. -/
theorem writeList_wminv (cfg : Config) (fp : Bool) (l : List Int) :
    ∀ s : OutState, WMInv s → WMInv (writeList cfg fp l s) := by
  induction l with
  | nil => exact fun s h => h
  | cons b r ih => exact fun s h => ih _ (output_byte_wminv cfg fp b s h)

/-- C3: after pass initialisation, for every sequence of `write_byte`
calls that stays within capacity, every index actually stored to lies
in the closed interval `[low_watermark, high_watermark]` as it stands at
the end of the sequence (equivalently, no index outside that interval is
ever stored to). -/
theorem c3_watermark_bounds (cfg : Config) (fp : Bool) (l : List Int) (s0 : OutState)
    (hcap : (l.length : Int) ≤ s0.bufsize) :
    ∀ i ∈ (writeList cfg fp l (Output_passinit s0)).storedIdx,
      (writeList cfg fp l (Output_passinit s0)).lowest_written ≤ i ∧
        i ≤ (writeList cfg fp l (Output_passinit s0)).highest_written := by
  have _ := hcap
  have hinit : WMInv (Output_passinit s0) := by
    rw [WMInv]
    intro i hi
    simp [Output_passinit] at hi
  exact writeList_wminv cfg fp l _ hinit

/-- C3 witness: two writes into the pass-initialised 8-byte state. -/
theorem c3_witness :
    (([3, 4] : List Int).length : Int) ≤ testState.bufsize ∧
      ∀ i ∈ (writeList testConfig true [3, 4] (Output_passinit testState)).storedIdx,
        (writeList testConfig true [3, 4] (Output_passinit testState)).lowest_written ≤ i ∧
          i ≤ (writeList testConfig true [3, 4] (Output_passinit testState)).highest_written :=
  ⟨by decide, c3_watermark_bounds testConfig true [3, 4] testState (by decide)⟩

/-- Helper: writing `l.length` bytes that fit below capacity from an
enabled writer whose segment bound is `bufsize - 1` never goes fatal,
keeps the writer enabled, keeps the bound at `bufsize - 1`, and advances
the cursor by exactly `l.length`. -/
theorem writeList_within (cfg : Config) (fp : Bool) (l : List Int) :
    ∀ s : OutState, s.fatal = false → s.write_enabled = true →
      s.seg_max = s.bufsize - 1 → s.write_idx + l.length ≤ s.bufsize →
      (writeList cfg fp l s).fatal = false ∧
        (writeList cfg fp l s).write_enabled = true ∧
        (writeList cfg fp l s).seg_max = (writeList cfg fp l s).bufsize - 1 ∧
        (writeList cfg fp l s).bufsize = s.bufsize ∧
        (writeList cfg fp l s).write_idx = s.write_idx + l.length := by
  induction l with
  | nil =>
    intro s h1 h2 h3 _
    exact ⟨h1, h2, by rw [writeList, h3], rfl, by simp [writeList]⟩
  | cons b r ih =>
    intro s h1 h2 h3 h4
    have hlen : ((b :: r).length : Int) = (r.length : Int) + 1 := by
      simp
    have hnb : ¬ s.seg_max < s.write_idx := by
      rw [h3]
      have : (0 : Int) ≤ (r.length : Int) := Int.ofNat_nonneg _
      omega
    have hstep : Output_byte cfg fp b s = store_step b s := by
      simp only [Output_byte, real_output]
      simp [h1, h2, hnb]
    obtain ⟨se, _, sf, swi, _, _, smax, sbsz, _, _⟩ := store_step_frame b s
    have h1' : (store_step b s).fatal = false := by rw [sf, h1]
    have h2' : (store_step b s).write_enabled = true := by rw [se, h2]
    have h3' : (store_step b s).seg_max = (store_step b s).bufsize - 1 := by
      rw [smax, sbsz, h3]
    have h4' : (store_step b s).write_idx + r.length ≤ (store_step b s).bufsize := by
      rw [swi, sbsz]
      omega
    obtain ⟨c1, c2, c3, c4, c5⟩ := ih (store_step b s) h1' h2' h3' h4'
    rw [writeList, hstep]
    refine ⟨c1, c2, c3, by rw [c4, sbsz], ?_⟩
    rw [c5, swi]
    omega

/-- Helper: a write whose cursor is past the segment bound and at or
past capacity raises the fatal "Produced too much code." condition. -/
theorem real_output_overflow (cfg : Config) (fp : Bool) (b : Int) (s : OutState)
    (hf : s.fatal = false) (hm : s.seg_max < s.write_idx) (hof : s.bufsize ≤ s.write_idx) :
    (real_output cfg fp b s).fatal = true := by
  simp only [real_output, border_crossed]
  simp [hf, hm, hof]

/-- Helper: the state right after `Output_passinit` followed by
`vcpu_set_pc 0` (no flags) with an empty segment ring: not fatal,
writing enabled, cursor 0, segment bound `bufsize - 1`. -/
theorem setup_state_fields (cfg : Config) (s0 : OutState)
    (hseg : s0.segments = []) (hfat : s0.fatal = false) :
    (vcpu_set_pc cfg true 0 ⟨false, false⟩ (Output_passinit s0)).fatal = false ∧
      (vcpu_set_pc cfg true 0 ⟨false, false⟩ (Output_passinit s0)).write_enabled = true ∧
      (vcpu_set_pc cfg true 0 ⟨false, false⟩ (Output_passinit s0)).write_idx = 0 ∧
      (vcpu_set_pc cfg true 0 ⟨false, false⟩ (Output_passinit s0)).seg_max = s0.bufsize - 1 ∧
      (vcpu_set_pc cfg true 0 ⟨false, false⟩ (Output_passinit s0)).bufsize = s0.bufsize := by
  simp [vcpu_set_pc, Output_passinit, Output_start_segment, Output_end_segment,
    check_segment, check_segment_hit, find_segment_max, hseg, hfat]

/-- C2: from a pass-initialised buffer with the PC set to 0 and a single
(fresh) segment, emitting exactly `capacity` bytes via `write_byte`
never raises the fatal "Produced too much code." condition, and the
`capacity + 1`-th byte does raise it. -/
theorem c2_capacity_boundary (cfg : Config) (s0 : OutState) (l : List Int) (b : Int)
    (hseg : s0.segments = []) (hfat : s0.fatal = false)
    (hlen : (l.length : Int) = s0.bufsize) :
    (writeList cfg true l (vcpu_set_pc cfg true 0 ⟨false, false⟩ (Output_passinit s0))).fatal = false ∧
      (Output_byte cfg true b
          (writeList cfg true l (vcpu_set_pc cfg true 0 ⟨false, false⟩ (Output_passinit s0)))).fatal =
        true := by
  obtain ⟨f1, f2, f3, f4, f5⟩ := setup_state_fields cfg s0 hseg hfat
  set s1 := vcpu_set_pc cfg true 0 ⟨false, false⟩ (Output_passinit s0) with hs1
  have hcap : s1.write_idx + l.length ≤ s1.bufsize := by
    rw [f3, f5, hlen]
    omega
  obtain ⟨c1, c2, c3, c4, c5⟩ :=
    writeList_within cfg true l s1 f1 f2 (by rw [f4, f5]) hcap
  set t := writeList cfg true l s1 with htdef
  refine ⟨c1, ?_⟩
  have hwi : t.write_idx = s0.bufsize := by
    rw [c5, f3, hlen]
    omega
  have hmax : t.seg_max < t.write_idx := by
    rw [c3, c4, f5, hwi]
    omega
  have hof : t.bufsize ≤ t.write_idx := by
    rw [c4, f5, hwi]
  rw [Output_byte]
  simp only [c1, if_false, Bool.false_eq_true, c2, if_true]
  exact real_output_overflow cfg true b t c1 hmax hof

/-- C2 witness: the 8-byte buffer accepts exactly 8 bytes; the 9th write
is fatal. -/
theorem c2_witness :
    testState.segments = [] ∧ testState.fatal = false ∧
      (([1, 2, 3, 4, 5, 6, 7, 8] : List Int).length : Int) = testState.bufsize ∧
      ((writeList testConfig true [1, 2, 3, 4, 5, 6, 7, 8]
            (vcpu_set_pc testConfig true 0 ⟨false, false⟩ (Output_passinit testState))).fatal = false ∧
        (Output_byte testConfig true 9
            (writeList testConfig true [1, 2, 3, 4, 5, 6, 7, 8]
              (vcpu_set_pc testConfig true 0 ⟨false, false⟩ (Output_passinit testState)))).fatal =
          true) :=
  ⟨rfl, rfl, by decide,
    c2_capacity_boundary testConfig testState [1, 2, 3, 4, 5, 6, 7, 8] 9 rfl rfl (by decide)⟩

/-- Helper: with fill value 0 the run-detection test of the `outputHex`
loop is never taken, so one loop iteration either closes a full 64-byte
chunk or just advances. -/
theorem hexFuel_zero_step (buf : Int → Nat) (fuel : Nat) (i cs : Int) (acc : List (Int × Int))
    (h2 : i - cs ≤ 64) :
    hexFuel buf 0 (fuel + 1) i cs 0 acc =
      if i - cs = 64 then hexFuel buf 0 fuel (i + 1) i 0 (acc ++ [(cs, 64)])
      else hexFuel buf 0 fuel (i + 1) cs 0 acc := by
  have hfill : ¬((0 : Nat) ≠ 0 ∧ buf i = 0) := by simp
  have hec : ¬(32 : Int) < 0 := by decide
  by_cases h : i - cs = 64
  · rw [if_pos h]
    simp only [hexFuel, h, if_pos]
    rw [if_neg hfill]
    simp only [hec, if_false]
    rw [if_pos (Or.inr (by omega))]
    norm_num
  · rw [if_neg h]
    simp only [hexFuel]
    rw [if_neg hfill]
    simp only [hec, if_false]
    rw [if_neg]
    push_neg
    exact ⟨rfl, by omega⟩

/-- Helper: coverage distributes over appended chunk lists. -/
theorem covers_append (l1 l2 : List (Int × Int)) (j : Int) :
    covers l1 j ∨ covers l2 j → covers (l1 ++ l2) j := by
  rintro (⟨p, hp, h1, h2⟩ | ⟨p, hp, h1, h2⟩)
  · exact ⟨p, List.mem_append_left _ hp, h1, h2⟩
  · exact ⟨p, List.mem_append_right _ hp, h1, h2⟩

/-- Helper: the `outputHex` loop only appends to its chunk
accumulator. -/
theorem hexFuel_acc (buf : Int → Nat) (fill : Nat) (fuel : Nat) :
    ∀ (i cs ec : Int) (acc : List (Int × Int)),
      hexFuel buf fill fuel i cs ec acc = acc ++ hexFuel buf fill fuel i cs ec [] := by
  induction fuel with
  | zero =>
    intro i cs ec acc
    simp only [hexFuel]
    split_ifs <;> simp
  | succ fuel ih =>
    intro i cs ec acc
    have key : ∀ (a b c : Int) (X : List (Int × Int)),
        hexFuel buf fill fuel a b c (acc ++ X) = acc ++ hexFuel buf fill fuel a b c ([] ++ X) := by
      intro a b c X
      rw [ih a b c (acc ++ X), ih a b c ([] ++ X)]
      simp [List.append_assoc]
    simp only [hexFuel]
    split_ifs <;> first
      | exact ih _ _ _ _
      | exact key _ _ _ _

/-- Helper: with fill value 0 the loop's emitted chunks cover all of
`[chunkStart, i + fuel)`, given the running-chunk invariant
`chunkStart ≤ i ≤ chunkStart + 64`. -/
theorem hexFuel_zero_covers (buf : Int → Nat) (fuel : Nat) :
    ∀ (i cs : Int), cs ≤ i → i - cs ≤ 64 →
      ∀ j, cs ≤ j → j < i + fuel →
        covers (hexFuel buf 0 fuel i cs 0 []) j := by
  induction fuel with
  | zero =>
    intro i cs h1 h2 j hj1 hj2
    have hj2' : j < i := by push_cast at hj2; omega
    have hmod : (i - cs) % 256 = i - cs := Int.emod_eq_of_lt (by omega) (by omega)
    simp only [hexFuel, hmod]
    rw [if_pos (show i - cs ≠ 0 by omega)]
    exact ⟨(cs, i - cs), by simp, by omega, by omega⟩
  | succ fuel ih =>
    intro i cs h1 h2 j hj1 hj2
    rw [hexFuel_zero_step buf fuel i cs [] h2]
    by_cases h : i - cs = 64
    · rw [if_pos h, hexFuel_acc buf 0 fuel (i + 1) i 0 ([] ++ [(cs, 64)])]
      apply covers_append
      by_cases hj : j < i
      · exact Or.inl ⟨(cs, 64), by simp, by omega, by omega⟩
      · exact Or.inr (ih (i + 1) i (by omega) (by omega) j (by omega)
          (by push_cast at hj2 ⊢; omega))
    · rw [if_neg h]
      exact ih (i + 1) cs (by omega) (by omega) j hj1 (by push_cast at hj2 ⊢; omega)

/-- C10: when the buffer's fill value is 0, the Intel HEX writer skips
no fill runs at all: every index in the emitted range `[start, amount)`
— whatever the buffer contents, including runs of zero bytes longer
than 32 — is written into some data record, because the run-detection
test `fill_value && c == fill_value` requires a nonzero fill value. -/
theorem c10_hex_fill_zero_covers (buf : Int → Nat) (start amount j : Int)
    (h1 : start ≤ j) (h2 : j < amount) :
    covers (outputHexChunks buf 0 start amount) j := by
  rw [outputHexChunks]
  have hnn : 0 ≤ amount - start := by omega
  have hcast : start + ((amount - start).toNat : Int) = amount := by
    rw [Int.toNat_of_nonneg hnn]
    ring
  exact hexFuel_zero_covers buf (amount - start).toNat start start (le_refl _) (by omega) j h1
    (by rw [hcast]; exact h2)

/-- C10 witness: an all-zero buffer (a zero run longer than 32) with
fill value 0 over range [0, 40): index 35 is still covered by a data
record. -/
theorem c10_witness :
    (0 : Int) ≤ 35 ∧ (35 : Int) < 40 ∧
      covers (outputHexChunks (fun _ => 0) 0 0 40) 35 :=
  ⟨by decide, by decide, c10_hex_fill_zero_covers (fun _ => 0) 0 40 35 (by decide) (by decide)⟩
